import Mathlib

/-!
Shallow embedding of the WinBets enrichment pipeline core (odds extraction,
outcome/payout classification, weather aggregation, merge/dedup, duplicate
detection), with theorems settling the specification claims against it.

Numeric cells from the spreadsheets and JSON payloads are modelled as `ℚ`
(exact arithmetic in place of Python floats), missing values as `Option`,
and raised exceptions / skipped items as `none`.
-/

namespace WinBets

/-! ## Outcome classifier (src/get_odds.py lines 145-161, src/get_odds_v2.py lines 152-164)

`line is None → outcome None`; `actual == line → Push`; `actual > line → Over`;
otherwise `Under`.  Payouts for a flat 100 stake: Over ⇒ `(100*over_o, 0)`,
Under ⇒ `(0, 100*under_o)`, Push ⇒ `(100, 100)`, no outcome ⇒ `(None, None)`,
where `over_o = odds['TotalOverOdds'] or 0` and similarly for `under_o`. -/

/-- `actual == line / actual > line / else` three-way label; `None` line gives
`None` outcome (get_odds.py lines 150-153). -/
def outcomeOf (line : Option ℚ) (actual : ℚ) : Option String :=
  match line with
  | none => none
  | some l =>
    if actual = l then some "Push"
    else if actual > l then some "Over"
    else some "Under"

/-- The payout pair computed from the outcome label and the (defaulted)
decimal prices (get_odds.py lines 156-159). -/
def payoutsOf (outcome : Option String) (over_o under_o : ℚ) :
    Option ℚ × Option ℚ :=
  if outcome = some "Over" then (some (100 * over_o), some 0)
  else if outcome = some "Under" then (some 0, some (100 * under_o))
  else if outcome = some "Push" then (some 100, some 100)
  else (none, none)

/-- The `x or 0` defaulting applied to each price before payout math
(get_odds.py lines 146-147): a missing price becomes `0`.  (Python `or`
also maps a present `0.0` to `0`, which coincides with `getD 0`.) -/
def priceOrZero (p : Option ℚ) : ℚ := p.getD 0

/-- One event's outcome/payout computation from the fetched quote fields and
the realized total used by the comparison (get_odds.py lines 145-161). -/
def classifyOdds (line overP underP : Option ℚ) (actual : ℚ) :
    Option String × Option ℚ × Option ℚ :=
  (outcomeOf line actual,
   payoutsOf (outcomeOf line actual) (priceOrZero overP) (priceOrZero underP))

/-- The realized total read from the row: `row.get('TotalRuns', 0)` defaults a
missing realized total to `0` (get_odds.py line 148, get_odds_v2.py line 152). -/
def rowActual (totalRuns : Option ℚ) : ℚ := totalRuns.getD 0

/-- Per-row classification as the scripts perform it, including the
`TotalRuns`-defaulting step. -/
def classifyRow (line overP underP : Option ℚ) (totalRuns : Option ℚ) :
    Option String × Option ℚ × Option ℚ :=
  classifyOdds line overP underP (rowActual totalRuns)

/-! ## American→decimal conversion (src/fetch_historical_odds.py lines 23-32) -/

/-- Round half to even to an integer, the behaviour of Python `round` on an
exact tie (modelled over `ℚ`). -/
def roundHalfEven (q : ℚ) : ℤ :=
  if q - ⌊q⌋ < 1/2 then ⌊q⌋
  else if q - ⌊q⌋ > 1/2 then ⌊q⌋ + 1
  else if ⌊q⌋ % 2 = 0 then ⌊q⌋ else ⌊q⌋ + 1

/-- Python `round(x, 2)` modelled over exact rationals. -/
def round2 (x : ℚ) : ℚ := (roundHalfEven (x * 100) : ℚ) / 100

/-- `american_to_decimal` from fetch_historical_odds.py lines 23-32: `None`
passes through; positive odds give `round(a/100 + 1, 2)`; otherwise
`round(100/|a| + 1, 2)`.  Note the `round(..., 2)` applied before returning. -/
def american_to_decimal (a : Option ℚ) : Option ℚ :=
  match a with
  | none => none
  | some a =>
    if a > 0 then some (round2 (a / 100 + 1))
    else some (round2 (100 / |a| + 1))

example : american_to_decimal (some 150) = some (5/2) := by
  norm_num [american_to_decimal, round2, roundHalfEven]
example : american_to_decimal (some (-150)) = some (167/100) := by
  norm_num [american_to_decimal, round2, roundHalfEven]

/-! ## Market extractor (src/get_odds.py lines 80-98, src/get_odds_v2.py lines 80-98,
src/stats_grab.py lines 125-159, src/fetch_historical_odds.py lines 53-77)

The odds payload is a list of bookmakers, each with a list of markets, each
with a list of outcomes carrying a mandatory `name` and optional `point` and
`price` (`o['name']` is a direct key access, `o.get('point')`/`o.get('price')`
are optional). -/

/-- One entry of a market's `outcomes` list. -/
structure OutcomeDoc where
  name : String
  point : Option ℚ
  price : Option ℚ
deriving DecidableEq, Repr

/-- One entry of a bookmaker's `markets` list. -/
structure MarketDoc where
  key : String
  outcomes : List OutcomeDoc
deriving DecidableEq, Repr

/-- One entry of the document's `bookmakers` list. -/
structure BookmakerDoc where
  key : String
  markets : List MarketDoc
deriving DecidableEq, Repr

/-- The four-field record returned by `fetch_historical_totals`
(`TotalRunsLine`, `TotalOverOdds`, `TotalUnderOdds`, `Sportbook`);
`dict.fromkeys(..., None)` is the all-`none` record. -/
structure OddsRec where
  totalRunsLine : Option ℚ
  totalOverOdds : Option ℚ
  totalUnderOdds : Option ℚ
  sportbook : Option String
deriving DecidableEq, Repr

/-- The NoData record `dict.fromkeys([...], None)`. -/
def OddsRec.noData : OddsRec := ⟨none, none, none, none⟩

/-- Inner market scan of `fetch_historical_totals` (get_odds.py lines 82-93):
within one bookmaker, find a `totals`-keyed market whose outcomes contain both
an `Over` and an `Under` entry, and copy its fields. -/
def extractFromMarkets (bkey : String) : List MarketDoc → Option OddsRec
  | [] => none
  | m :: ms =>
    if m.key = "totals" then
      match m.outcomes.find? (fun o => o.name == "Over"),
            m.outcomes.find? (fun o => o.name == "Under") with
      | some ov, some un => some ⟨ov.point, ov.price, un.price, some bkey⟩
      | _, _ => extractFromMarkets bkey ms
    else extractFromMarkets bkey ms

/-- The quote the get_odds.py extractor would take from a single bookmaker. -/
def bookQuote (b : BookmakerDoc) : Option OddsRec :=
  extractFromMarkets b.key b.markets

/-- Document scan of `fetch_historical_totals` (get_odds.py lines 80-98):
first bookmaker with a complete `totals` market wins; if none qualifies the
all-`None` record is returned. -/
def fetch_historical_totals : List BookmakerDoc → OddsRec
  | [] => OddsRec.noData
  | b :: bs =>
    match bookQuote b with
    | some q => q
    | none => fetch_historical_totals bs

/-- stats_grab.py lines 126-133: locate the first `totals`-keyed market in
bookmaker-major document order (`break` on the first hit). -/
def findTotalsMarket : List BookmakerDoc → Option MarketDoc
  | [] => none
  | bm :: rest =>
    match bm.markets.find? (fun m => m.key == "totals") with
    | some m => some m
    | none => findTotalsMarket rest

/-- stats_grab.py lines 141-149: fold over the outcomes, `Over` setting
`(line, over_odds)` and `Under` setting `(line, under_odds)` (a later
outcome's `point` overwrites `line`).  Accumulator is `(line, over, under)`. -/
def extractLineOdds (m : MarketDoc) : Option ℚ × Option ℚ × Option ℚ :=
  m.outcomes.foldl
    (fun acc oc =>
      if oc.name = "Over" then (oc.point, oc.price, acc.2.2)
      else if oc.name = "Under" then (oc.point, acc.2.1, oc.price)
      else acc)
    (none, none, none)

/-- stats_grab.py lines 135-159: the per-game quote; the game is skipped
(`none`) when no totals market exists or when any of line/over/under is
missing in the first totals market found. -/
def statsGrabQuote (books : List BookmakerDoc) : Option (ℚ × ℚ × ℚ) :=
  match findTotalsMarket books with
  | none => none
  | some m =>
    match extractLineOdds m with
    | (some l, some ov, some un) => some (l, ov, un)
    | _ => none

/-- fetch_historical_odds.py lines 69-76 inner scan: within one bookmaker's
markets, return `(point, american_to_decimal price)` of the `Over` outcome of
a `totals` market as soon as one with an `Over` entry is found. -/
def overFromMarkets : List MarketDoc → Option (Option ℚ × Option ℚ)
  | [] => none
  | m :: ms =>
    if m.key = "totals" then
      match m.outcomes.find? (fun o => o.name == "Over") with
      | some ov => some (ov.point, american_to_decimal ov.price)
      | none => overFromMarkets ms
    else overFromMarkets ms

/-- fetch_historical_odds.py lines 68-77: scan bookmakers for the first
`totals` market with an `Over` outcome; `(None, None)` when none exists. -/
def overTotalsOf : List BookmakerDoc → Option ℚ × Option ℚ
  | [] => (none, none)
  | b :: bs =>
    match overFromMarkets b.markets with
    | some r => r
    | none => overTotalsOf bs

/-- `fetch_totals_for_event` (fetch_historical_odds.py lines 53-77) with the
HTTP layer abstracted as an oracle from the request's `(entity, date)` query
parameters to the decoded bookmaker list: the function issues its single
historical odds query with `date := game_date_iso`, the event's nominal time
(line 63), and reduces the response. -/
def fetch_totals_for_event (respAt : String → String → List BookmakerDoc)
    (event_id game_date_iso : String) : Option ℚ × Option ℚ :=
  overTotalsOf (respAt event_id game_date_iso)

/-- The value passed as the `date` query parameter by `fetch_totals_for_event`
(fetch_historical_odds.py line 63): the nominal `game_date_iso`, not a
snapshot token. -/
def fetchTotalsQueryDate (event_id game_date_iso : String) : String :=
  game_date_iso

/-! ## Snapshot-token usage in get_odds_v2.py (lines 133-144)

`ts = get_snapshot_ts(eid, iso); if not ts: continue` — a falsy token (absent
or empty) skips the event's odds enrichment entirely; otherwise the odds query
is issued with `date := ts`.  The resolver and the odds endpoint are oracles;
the result records the `date` parameter actually used alongside the reduced
quote, and `none` means the row was skipped. -/
def processEventOdds (resolveTs : String → String → Option String)
    (respAt : String → String → List BookmakerDoc) (eid iso : String) :
    Option (String × OddsRec) :=
  match resolveTs eid iso with
  | none => none
  | some ts =>
    if ts = "" then none
    else some (ts, fetch_historical_totals (respAt eid ts))

/-! ## Merge/dedup engine (src/eventids.py lines 101-108)

`df_all = pd.concat([df_prev, df_new]); df_all.drop_duplicates(subset=["id"])`
keeps the first occurrence of each `id` in concatenation order, so previous
rows win over new rows with the same identifier. -/

/-- A table row: the `id` key column plus the remaining columns, abstracted
as a payload of type `α`. -/
structure MRow (α : Type) where
  id : String
  data : α
deriving DecidableEq, Repr

/-- `drop_duplicates(subset=["id"])` with the default `keep='first'`:
keep each row whose `id` has not appeared earlier in the list. -/
def dropDupById {α : Type} : List (MRow α) → List (MRow α)
  | [] => []
  | r :: rest =>
    r :: dropDupById (rest.filter fun x => decide (x.id ≠ r.id))
termination_by l => l.length
decreasing_by
  simp only [List.length_cons]
  exact Nat.lt_succ_of_le (List.length_filter_le _ _)

/-- eventids.py lines 103-106: concatenate the previous table with the new
rows, then drop duplicate identifiers keeping the first occurrence. -/
def mergeTables {α : Type} (prev new : List (MRow α)) : List (MRow α) :=
  dropDupById (prev ++ new)

/-! ## Exact duplicate detection (src/check.py lines 23-39) -/

/-- One record built by check.py lines 13-18: sheet name, spreadsheet row
number, and the projected cell values of the compared columns (a missing
cell — NaN — is `none`). -/
structure DRow where
  sheet : String
  rowNum : ℕ
  vals : List (Option ℚ)
deriving DecidableEq, Repr

/-- The `(sheet, excel_row)` key under which a record is reported. -/
def DRow.dkey (d : DRow) : String × ℕ := (d.sheet, d.rowNum)

/-- check.py lines 29-36: AND over `zip(vals_i, vals_j)`, with two missing
values (`pd.isna` both) counted as equal; `Option` equality captures both the
NaN==NaN special case and the ordinary `a != b` test. -/
def rowvalsEq (xs ys : List (Option ℚ)) : Bool :=
  (xs.zip ys).all fun p => decide (p.1 = p.2)

/-- check.py lines 21-39: the nested `i < j` loops, emitting each matching
pair once with the earlier record first. -/
def findDuplicatesLoops : List DRow → List ((String × ℕ) × (String × ℕ))
  | [] => []
  | r :: rest =>
    (rest.filterMap fun s =>
      if rowvalsEq r.vals s.vals then some (r.dkey, s.dkey) else none)
    ++ findDuplicatesLoops rest

/-! ## Weather aggregator (src/get_weather.py lines 17-112, src/stats_grab.py lines 169-232)

Sample timestamps are modelled in hours as `ℚ`; the measured channels are
real-valued.  The two source variants differ only in the window half-width
(1.5 h in get_weather.py lines 37-38, 1 h in stats_grab.py line 171); both
raise (here: `none`) on an empty window and otherwise return arithmetic means
of the scalar channels, the circular mean of the wind directions, and the
text of the most frequent weather code. -/

/-- One aligned hourly observation from the archive response. -/
structure WSample where
  time : ℚ
  temp : ℝ
  hum : ℝ
  wspd : ℝ
  wdir : ℝ
  code : ℕ

/-- The summary dict returned on success. -/
structure WSummary where
  avgTemp : ℝ
  avgHum : ℝ
  avgWind : ℝ
  avgDir : ℝ
  condition : String

/-- `math.radians`. -/
noncomputable def deg2rad (d : ℝ) : ℝ := d * (Real.pi / 180)

/-- `math.degrees`. -/
noncomputable def rad2deg (r : ℝ) : ℝ := r * (180 / Real.pi)

/-- `math.atan2 y x`: the argument of the point `(x, y)`, in `(-π, π]`. -/
noncomputable def atan2 (y x : ℝ) : ℝ := Complex.arg ⟨x, y⟩

/-- Python `x % 360.0` for a real `x`: `x - 360*⌊x/360⌋`. -/
noncomputable def fmod360 (x : ℝ) : ℝ := x - 360 * ⌊x / 360⌋

/-- get_weather.py lines 86-89 / stats_grab.py lines 209-211: circular mean
of a list of angles already converted to radians —
`degrees(atan2(sin_sum/n, cos_sum/n)) % 360`. -/
noncomputable def circAvgDeg (dirsRad : List ℝ) : ℝ :=
  fmod360 (rad2deg (atan2 ((dirsRad.map Real.sin).sum / dirsRad.length)
                          ((dirsRad.map Real.cos).sum / dirsRad.length)))

/-- The distinct elements of `l` in first-occurrence order, as a Python
`Counter` stores its keys. -/
def firstOccurrences (l : List ℕ) : List ℕ :=
  l.foldl (fun acc x => if x ∈ acc then acc else acc ++ [x]) []

/-- `Counter(codes).most_common(1)[0][0]`: the element with the strictly
largest count, ties resolved to the earliest-inserted key. -/
def mostCommon (l : List ℕ) : ℕ :=
  (firstOccurrences l).foldl
    (fun best x => if l.count x > l.count best then x else best)
    ((firstOccurrences l).headD 0)

/-- The fixed `weather_map` code→text table (get_weather.py lines 93-103);
`dict.get(..., "Unknown")` makes it total. -/
def weatherCodeText (c : ℕ) : String :=
  match c with
  | 0 => "Clear sky" | 1 => "Mainly clear" | 2 => "Partly cloudy"
  | 3 => "Overcast" | 45 => "Fog" | 48 => "Depositing rime fog"
  | 51 => "Light drizzle" | 53 => "Moderate drizzle" | 55 => "Dense drizzle"
  | 56 => "Light freezing drizzle" | 57 => "Dense freezing drizzle"
  | 61 => "Slight rain" | 63 => "Moderate rain" | 65 => "Heavy rain"
  | 66 => "Light freezing rain" | 67 => "Heavy freezing rain"
  | 71 => "Slight snow fall" | 73 => "Moderate snow fall"
  | 75 => "Heavy snow fall" | 77 => "Snow grains"
  | 80 => "Slight rain showers" | 81 => "Moderate rain showers"
  | 82 => "Violent rain showers" | 85 => "Slight snow showers"
  | 86 => "Heavy snow showers" | 95 => "Thunderstorm"
  | 96 => "Thunderstorm with slight hail" | 99 => "Thunderstorm with heavy hail"
  | _ => "Unknown"

/-- Eligibility test `start_window <= t <= end_window` (get_weather.py
line 70, stats_grab.py line 198). -/
def inWindow (lo hi : ℚ) (s : WSample) : Bool :=
  decide (lo ≤ s.time ∧ s.time ≤ hi)

/-- The common body of `get_3hr_weather_avg` / `get_2hr_weather_avg`,
parameterized by the window half-width in hours: filter the aligned samples
to the padded window, fail (`none`, the raised `ValueError`) on an empty
window, and otherwise aggregate. -/
noncomputable def weatherAvg (halfWidth gameTime : ℚ) (samples : List WSample) :
    Option WSummary :=
  let inw := samples.filter (inWindow (gameTime - halfWidth) (gameTime + halfWidth))
  if inw.isEmpty then none
  else some
    { avgTemp := (inw.map (·.temp)).sum / inw.length
      avgHum := (inw.map (·.hum)).sum / inw.length
      avgWind := (inw.map (·.wspd)).sum / inw.length
      avgDir := circAvgDeg (inw.map fun s => deg2rad s.wdir)
      condition := weatherCodeText (mostCommon (inw.map (·.code))) }

/-- get_weather.py lines 17-112: ±1.5 h window variant. -/
noncomputable def get_3hr_weather_avg : ℚ → List WSample → Option WSummary :=
  weatherAvg (3/2)

/-- stats_grab.py lines 169-232: ±1 h window variant. -/
noncomputable def get_2hr_weather_avg : ℚ → List WSample → Option WSummary :=
  weatherAvg 1

/-- Modelled from the spec (§4.4 angular reduction): the circular mean of a
list of wind directions given in degrees — degrees to radians, `atan2` of the
averaged sines and cosines, back to degrees, normalized into `[0, 360)`.
Stated separately from the source embedding so the two can be compared. -/
noncomputable def circularMeanDegSpec (degs : List ℝ) : ℝ :=
  let th := degs.map deg2rad
  fmod360 (rad2deg (atan2 ((th.map Real.sin).sum / th.length)
                          ((th.map Real.cos).sum / th.length)))

/-! ## Lemmas about the merge/dedup engine -/

theorem dropDupById_nil {α : Type} : dropDupById ([] : List (MRow α)) = [] := by
  rw [dropDupById]

theorem dropDupById_cons {α : Type} (r : MRow α) (l : List (MRow α)) :
    dropDupById (r :: l)
      = r :: dropDupById (l.filter fun x => decide (x.id ≠ r.id)) := by
  rw [dropDupById]

/-- Filtering away only elements that cannot satisfy `p` leaves `find? p`
unchanged. -/
theorem find?_filter_of_imp {β : Type} (l : List β) (p q : β → Bool)
    (h : ∀ x, p x = true → q x = true) : (l.filter q).find? p = l.find? p := by
  induction l with
  | nil => rfl
  | cons a l ih =>
    by_cases hq : q a
    · rw [List.filter_cons_of_pos hq]
      by_cases hp : p a
      · rw [List.find?_cons_of_pos _ hp, List.find?_cons_of_pos _ hp]
      · rw [List.find?_cons_of_neg _ hp, List.find?_cons_of_neg _ hp, ih]
    · have hp : ¬ p a = true := fun hc => hq (h a hc)
      rw [List.filter_cons_of_neg (by simpa using hq),
        List.find?_cons_of_neg _ hp, ih]

/-- De-duplication does not change the first row found for any identifier. -/
theorem find?_dropDupById {α : Type} (l : List (MRow α)) (k : String) :
    (dropDupById l).find? (fun r => decide (r.id = k))
      = l.find? (fun r => decide (r.id = k)) := by
  induction l using dropDupById.induct with
  | case1 => rw [dropDupById_nil]
  | case2 r rest ih =>
    rw [dropDupById_cons]
    by_cases hk : r.id = k
    · rw [List.find?_cons_of_pos _ (by simp [hk]),
        List.find?_cons_of_pos _ (by simp [hk])]
    · rw [List.find?_cons_of_neg _ (by simp [hk]),
        List.find?_cons_of_neg _ (by simp [hk]), ih, find?_filter_of_imp]
      intro x hx
      simp only [decide_eq_true_eq] at hx ⊢
      rw [hx]
      exact fun hc => hk hc.symm

/-- De-duplication preserves the set of identifiers. -/
theorem mem_ids_dropDupById {α : Type} (l : List (MRow α)) (k : String) :
    k ∈ (dropDupById l).map MRow.id ↔ k ∈ l.map MRow.id := by
  have h := find?_dropDupById l k
  constructor <;> intro hm
  · obtain ⟨x, hx, hxk⟩ := List.mem_map.mp hm
    have : ((dropDupById l).find? (fun r => decide (r.id = k))).isSome := by
      rw [List.find?_isSome]
      exact ⟨x, hx, by simp [hxk]⟩
    rw [h, List.find?_isSome] at this
    obtain ⟨y, hy, hyk⟩ := this
    exact List.mem_map.mpr ⟨y, hy, by simpa using hyk⟩
  · obtain ⟨x, hx, hxk⟩ := List.mem_map.mp hm
    have : ((l.find? (fun r => decide (r.id = k)))).isSome := by
      rw [List.find?_isSome]
      exact ⟨x, hx, by simp [hxk]⟩
    rw [← h, List.find?_isSome] at this
    obtain ⟨y, hy, hyk⟩ := this
    exact List.mem_map.mpr ⟨y, hy, by simpa using hyk⟩

theorem mem_of_mem_dropDupById {α : Type} (l : List (MRow α)) (x : MRow α)
    (hx : x ∈ dropDupById l) : x ∈ l := by
  induction l using dropDupById.induct with
  | case1 => rw [dropDupById_nil] at hx; exact absurd hx (List.not_mem_nil x)
  | case2 r rest ih =>
    rw [dropDupById_cons] at hx
    rcases List.mem_cons.mp hx with h | h
    · exact h ▸ List.mem_cons_self r rest
    · exact List.mem_cons_of_mem r (List.mem_of_mem_filter (ih h))

/-- After de-duplication every identifier occurs at most once. -/
theorem nodup_ids_dropDupById {α : Type} (l : List (MRow α)) :
    ((dropDupById l).map MRow.id).Nodup := by
  induction l using dropDupById.induct with
  | case1 => rw [dropDupById_nil]; exact List.nodup_nil
  | case2 r rest ih =>
    rw [dropDupById_cons, List.map_cons, List.nodup_cons]
    refine ⟨?_, ih⟩
    intro hmem
    rw [mem_ids_dropDupById] at hmem
    obtain ⟨x, hx, hxk⟩ := List.mem_map.mp hmem
    have := List.of_mem_filter hx
    simp only [decide_eq_true_eq] at this
    exact this hxk

/-- Appending rows whose identifiers are all already present changes nothing
after de-duplication. -/
theorem dropDupById_append_absorb {α : Type} :
    ∀ (n : ℕ) (L R : List (MRow α)), L.length ≤ n →
    (∀ r ∈ R, r.id ∈ L.map MRow.id) →
    dropDupById (L ++ R) = dropDupById L := by
  intro n
  induction n with
  | zero =>
    intro L R hL hR
    have : L = [] := List.length_eq_zero.mp (Nat.le_zero.mp hL)
    subst this
    have : R = [] := by
      rcases R with _ | ⟨r, rs⟩
      · rfl
      · exact absurd (hR r (List.mem_cons_self r rs)) (by simp)
    subst this
    rfl
  | succ n ih =>
    intro L R hL hR
    rcases L with _ | ⟨a, L'⟩
    · have : R = [] := by
        rcases R with _ | ⟨r, rs⟩
        · rfl
        · exact absurd (hR r (List.mem_cons_self r rs)) (by simp)
      subst this
      rfl
    · rw [List.cons_append, dropDupById_cons, dropDupById_cons,
        List.filter_append]
      congr 1
      apply ih
      · calc (L'.filter fun x => decide (x.id ≠ a.id)).length
            ≤ L'.length := List.length_filter_le _ _
          _ ≤ n := Nat.succ_le_succ_iff.mp hL
      · intro r hr
        have hrR : r ∈ R := List.mem_of_mem_filter hr
        have hrid : r.id ≠ a.id := by
          have := List.of_mem_filter hr
          simpa using this
        have := hR r hrR
        rw [List.map_cons, List.mem_cons] at this
        rcases this with h | h
        · exact absurd h hrid
        · obtain ⟨x, hx, hxk⟩ := List.mem_map.mp h
          refine List.mem_map.mpr ⟨x, List.mem_filter.mpr ⟨hx, ?_⟩, hxk⟩
          simp [hxk, hrid]

theorem dropDupById_idem {α : Type} :
    ∀ (n : ℕ) (l : List (MRow α)), l.length ≤ n →
    dropDupById (dropDupById l) = dropDupById l := by
  intro n
  induction n with
  | zero =>
    intro l hl
    have : l = [] := List.length_eq_zero.mp (Nat.le_zero.mp hl)
    subst this
    rw [dropDupById_nil, dropDupById_nil]
  | succ n ih =>
    intro l hl
    rcases l with _ | ⟨r, rest⟩
    · rw [dropDupById_nil, dropDupById_nil]
    · rw [dropDupById_cons, dropDupById_cons]
      have hfl : ((dropDupById (rest.filter fun x => decide (x.id ≠ r.id))).filter
          fun x => decide (x.id ≠ r.id))
            = dropDupById (rest.filter fun x => decide (x.id ≠ r.id)) := by
        apply List.filter_eq_self.mpr
        intro x hx
        have := List.of_mem_filter (mem_of_mem_dropDupById _ x hx)
        simpa using this
      rw [hfl]
      congr 1
      apply ih
      calc (rest.filter fun x => decide (x.id ≠ r.id)).length
          ≤ rest.length := List.length_filter_le _ _
        _ ≤ n := Nat.succ_le_succ_iff.mp hl

/-! ## Lemmas about the duplicate detector -/

/-- Projected-row equality is symmetric. -/
theorem rowvalsEq_symm (xs ys : List (Option ℚ)) :
    rowvalsEq xs ys = rowvalsEq ys xs := by
  induction xs generalizing ys with
  | nil => cases ys <;> rfl
  | cons a xs ih =>
    cases ys with
    | nil => rfl
    | cons b ys =>
      simp only [rowvalsEq, List.zip_cons_cons, List.all_cons] at *
      rw [ih ys]
      congr 1
      exact decide_eq_decide.mpr eq_comm

/-- Every reported pair is made of keys of scanned records. -/
theorem mem_findDuplicatesLoops_keys (l : List DRow)
    (p : (String × ℕ) × (String × ℕ)) (hp : p ∈ findDuplicatesLoops l) :
    p.1 ∈ l.map DRow.dkey ∧ p.2 ∈ l.map DRow.dkey := by
  induction l with
  | nil => exact absurd hp (List.not_mem_nil p)
  | cons r rest ih =>
    rw [findDuplicatesLoops, List.mem_append] at hp
    rcases hp with h | h
    · obtain ⟨s, hs, hfs⟩ := List.mem_filterMap.mp h
      by_cases he : rowvalsEq r.vals s.vals
      · rw [if_pos he, Option.some_inj] at hfs
        subst hfs
        exact ⟨List.mem_map.mpr ⟨r, List.mem_cons_self r rest, rfl⟩,
          List.mem_map.mpr ⟨s, List.mem_cons_of_mem r hs, rfl⟩⟩
      · rw [if_neg he] at hfs
        exact absurd hfs (Option.noConfusion)
    · obtain ⟨h1, h2⟩ := ih h
      rw [List.map_cons]
      exact ⟨List.mem_cons_of_mem _ h1, List.mem_cons_of_mem _ h2⟩

/-- An outer record's batch contains no pair whose first key is not the
outer record's key. -/
theorem count_filterMap_fst_ne (r : DRow) (rest : List DRow)
    (k1 k2 : String × ℕ) (h : k1 ≠ r.dkey) :
    ((rest.filterMap fun s =>
      if rowvalsEq r.vals s.vals then some (r.dkey, s.dkey) else none).count
        (k1, k2)) = 0 := by
  rw [List.count_eq_zero]
  intro hm
  obtain ⟨s, hs, hfs⟩ := List.mem_filterMap.mp hm
  by_cases he : rowvalsEq r.vals s.vals
  · rw [if_pos he, Option.some_inj] at hfs
    exact h ((Prod.mk.injEq _ _ _ _ ▸ hfs).1).symm
  · rw [if_neg he] at hfs
    exact Option.noConfusion hfs

/-- An outer record's batch contains no pair whose second key matches no
inner record. -/
theorem count_filterMap_no_key (r : DRow) (rest : List DRow)
    (k1 k2 : String × ℕ) (h : ∀ s ∈ rest, s.dkey ≠ k2) :
    ((rest.filterMap fun s =>
      if rowvalsEq r.vals s.vals then some (r.dkey, s.dkey) else none).count
        (k1, k2)) = 0 := by
  rw [List.count_eq_zero]
  intro hm
  obtain ⟨s, hs, hfs⟩ := List.mem_filterMap.mp hm
  by_cases he : rowvalsEq r.vals s.vals
  · rw [if_pos he, Option.some_inj] at hfs
    exact h s hs (Prod.mk.injEq _ _ _ _ ▸ hfs).2
  · rw [if_neg he] at hfs
    exact Option.noConfusion hfs

/-- With duplicate-free keys, an outer record's batch reports the pair with
a matching inner record exactly once. -/
theorem count_filterMap_eq_one (r : DRow) (rest : List DRow) (B : DRow)
    (hnd : (rest.map DRow.dkey).Nodup) (hB : B ∈ rest)
    (he : rowvalsEq r.vals B.vals = true) :
    ((rest.filterMap fun s =>
      if rowvalsEq r.vals s.vals then some (r.dkey, s.dkey) else none).count
        (r.dkey, B.dkey)) = 1 := by
  induction rest with
  | nil => exact absurd hB (List.not_mem_nil B)
  | cons s rest' ih =>
    rw [List.map_cons, List.nodup_cons] at hnd
    rw [List.filterMap_cons]
    rcases List.mem_cons.mp hB with hBs | hB'
    · subst hBs
      rw [if_pos he, List.count_cons_self,
        count_filterMap_no_key r rest' _ _
          (fun s' hs' hk =>
            hnd.1 (by rw [← hk]; exact List.mem_map.mpr ⟨s', hs', rfl⟩))]
    · have hsk : s.dkey ≠ B.dkey :=
        fun hc => hnd.1 (hc ▸ List.mem_map.mpr ⟨B, hB', rfl⟩)
      have htail := ih hnd.2 hB'
      by_cases hse : rowvalsEq r.vals s.vals
      · rw [if_pos hse, List.count_cons_of_ne
          (fun hc => hsk ((Prod.mk.injEq _ _ _ _ ▸ hc).2).symm)]
        exact htail
      · rw [if_neg hse]
        exact htail

theorem count_findDup_zero_left (l : List DRow) (k1 k2 : String × ℕ)
    (h : k1 ∉ l.map DRow.dkey) :
    (findDuplicatesLoops l).count (k1, k2) = 0 := by
  rw [List.count_eq_zero]
  intro hm
  exact h (mem_findDuplicatesLoops_keys l _ hm).1

theorem count_findDup_zero_right (l : List DRow) (k1 k2 : String × ℕ)
    (h : k2 ∉ l.map DRow.dkey) :
    (findDuplicatesLoops l).count (k1, k2) = 0 := by
  rw [List.count_eq_zero]
  intro hm
  exact h (mem_findDuplicatesLoops_keys l _ hm).2

/-- With duplicate-free keys, the detector never pairs a record with
itself. -/
theorem no_self_duplicate (l : List DRow) (h : (l.map DRow.dkey).Nodup)
    (k : String × ℕ) : (k, k) ∉ findDuplicatesLoops l := by
  induction l with
  | nil => exact List.not_mem_nil _
  | cons r rest ih =>
    rw [List.map_cons, List.nodup_cons] at h
    rw [findDuplicatesLoops, List.mem_append]
    rintro (hm | hm)
    · obtain ⟨s, hs, hfs⟩ := List.mem_filterMap.mp hm
      by_cases he : rowvalsEq r.vals s.vals
      · rw [if_pos he, Option.some_inj] at hfs
        have h1 : r.dkey = k := (Prod.mk.injEq _ _ _ _ ▸ hfs).1
        have h2 : s.dkey = k := (Prod.mk.injEq _ _ _ _ ▸ hfs).2
        exact h.1 ((h1.trans h2.symm) ▸ List.mem_map.mpr ⟨s, hs, rfl⟩)
      · rw [if_neg he] at hfs
        exact Option.noConfusion hfs
    · exact ih h.2 hm

/-- With duplicate-free keys, a matching pair of distinct records is
reported exactly once across the two orders. -/
theorem count_pair_once :
    ∀ (l : List DRow), (l.map DRow.dkey).Nodup →
    ∀ A B : DRow, A ∈ l → B ∈ l → A.dkey ≠ B.dkey →
    rowvalsEq A.vals B.vals = true →
    (findDuplicatesLoops l).count (A.dkey, B.dkey)
      + (findDuplicatesLoops l).count (B.dkey, A.dkey) = 1 := by
  intro l
  induction l with
  | nil => intro _ A B hA; exact absurd hA (List.not_mem_nil A)
  | cons r rest ih =>
    intro hnd A B hA hB hne he
    rw [List.map_cons, List.nodup_cons] at hnd
    rw [findDuplicatesLoops, List.count_append, List.count_append]
    rcases List.mem_cons.mp hA with hAr | hA'
    · subst hAr
      have hBrest : B ∈ rest := by
        rcases List.mem_cons.mp hB with hBr | hr
        · exact absurd (hBr ▸ rfl) hne.symm
        · exact hr
      rw [count_filterMap_eq_one A rest B hnd.2 hBrest he,
        count_findDup_zero_left rest _ _ hnd.1,
        count_filterMap_fst_ne A rest _ _ hne.symm,
        count_findDup_zero_right rest _ _ hnd.1]
    · rcases List.mem_cons.mp hB with hBr | hB'
      · subst hBr
        rw [count_filterMap_fst_ne B rest _ _ hne,
          count_findDup_zero_right rest _ _ hnd.1,
          count_filterMap_eq_one B rest A hnd.2 hA'
            (by rw [rowvalsEq_symm]; exact he),
          count_findDup_zero_left rest _ _ hnd.1]
      · have hrA : A.dkey ≠ r.dkey :=
          fun hc => hnd.1 (hc ▸ List.mem_map.mpr ⟨A, hA', rfl⟩)
        have hrB : B.dkey ≠ r.dkey :=
          fun hc => hnd.1 (hc ▸ List.mem_map.mpr ⟨B, hB', rfl⟩)
        rw [count_filterMap_fst_ne r rest _ _ hrA,
          count_filterMap_fst_ne r rest _ _ hrB]
        have := ih hnd.2 A B hA' hB' hne he
        omega

/-! ## Theorems -/

/-- C1: with the line present, the classifier labels `Push` exactly when the
realized total equals the line, `Over` exactly when it is strictly greater,
`Under` exactly when it is strictly less; the payouts are `(100, 100)` for
`Push` regardless of prices, `(100·over_odds, 0)` for `Over` and
`(0, 100·under_odds)` for `Under`, a missing price on the winning side being
defaulted to `0` (so the payout is present, not missing). -/
theorem outcome_classifier_spec (l actual : ℚ) (overP underP : Option ℚ) :
    ((classifyOdds (some l) overP underP actual).1 = some "Push" ↔ actual = l)
  ∧ ((classifyOdds (some l) overP underP actual).1 = some "Over" ↔ l < actual)
  ∧ ((classifyOdds (some l) overP underP actual).1 = some "Under" ↔ actual < l)
  ∧ (actual = l →
      (classifyOdds (some l) overP underP actual).2 = (some 100, some 100))
  ∧ (l < actual →
      (classifyOdds (some l) overP underP actual).2
        = (some (100 * overP.getD 0), some 0))
  ∧ (actual < l →
      (classifyOdds (some l) overP underP actual).2
        = (some 0, some (100 * underP.getD 0))) := by
  simp only [classifyOdds, outcomeOf, payoutsOf, priceOrZero, gt_iff_lt]
  rcases lt_trichotomy actual l with h | h | h
  · rw [if_neg h.ne, if_neg (not_lt.mpr h.le)]
    simp [h, h.ne, not_lt.mpr h.le, lt_irrefl]
  · subst h
    simp [lt_irrefl]
  · rw [if_neg h.ne', if_pos h]
    simp [h, h.ne', not_lt.mpr h.le]

/-- Witness for C1 at the spec's own test vector: realized total 9 against
line 8.5 with decimal price 1.91 is an `Over` paying `(191, 0)`. -/
theorem outcome_classifier_spec_witness :
    (classifyOdds (some (17/2)) (some (191/100)) (some (191/100)) 9).1
      = some "Over"
  ∧ (classifyOdds (some (17/2)) (some (191/100)) (some (191/100)) 9).2
      = (some 191, some 0) := by
  have h := outcome_classifier_spec (17/2) 9 (some (191/100)) (some (191/100))
  refine ⟨h.2.1.mpr (by norm_num), ?_⟩
  rw [h.2.2.2.2.1 (by norm_num)]
  norm_num

/-- C10: a missing realized total is defaulted to `0` by
`row.get('TotalRuns', 0)`, so with any positive fetched line the event is
labeled `Under` and paid as an `Under` win, not given a null outcome. -/
theorem missing_total_labeled_under (l : ℚ) (overP underP : Option ℚ)
    (hl : 0 < l) :
    rowActual none = 0
  ∧ classifyRow (some l) overP underP none
      = (some "Under", some 0, some (100 * underP.getD 0)) := by
  refine ⟨rfl, ?_⟩
  simp only [classifyRow, rowActual, Option.getD_none, classifyOdds, outcomeOf,
    payoutsOf, priceOrZero, gt_iff_lt]
  rw [if_neg hl.ne, if_neg (not_lt.mpr hl.le)]
  simp

/-- Witness for C10: line 8.5 with under price 1.91 and a missing realized
total yields `Under` with payouts `(0, 191)`. -/
theorem missing_total_labeled_under_witness :
    rowActual none = 0
  ∧ classifyRow (some (17/2)) none (some (191/100)) none
      = (some "Under", some 0, some 191) := by
  have h := missing_total_labeled_under (17/2) none (some (191/100))
    (by norm_num)
  refine ⟨h.1, ?_⟩
  rw [h.2]
  norm_num

/-- |roundHalfEven q - q| never exceeds one half. -/
theorem roundHalfEven_close (q : ℚ) : |(roundHalfEven q : ℚ) - q| ≤ 1/2 := by
  have h0 : (⌊q⌋ : ℚ) ≤ q := Int.floor_le q
  have h1 : q < ⌊q⌋ + 1 := Int.lt_floor_add_one q
  unfold roundHalfEven
  split_ifs with hf hg he <;> rw [abs_le] <;> constructor <;> push_cast <;>
    linarith

/-- C5 counterexample: `american_to_decimal(-150)` returns `1.67`, not the
exact value `100/150 + 1 = 5/3` the claim asserts, because the function
rounds to two decimals before returning. -/
theorem american_to_decimal_not_exact :
    american_to_decimal (some (-150)) = some (167/100)
  ∧ (167/100 : ℚ) ≠ 100/150 + 1 := by
  constructor
  · norm_num [american_to_decimal, round2, roundHalfEven]
  · norm_num

/-- C5 amended: the conversion computes `a/100 + 1` for positive American
odds and `100/|a| + 1` for negative ones, but rounds the result half-to-even
to two decimal places before returning it (so it is exact only up to 1/200
and always a multiple of 1/100); `american_to_decimal(150) = 2.5` survives
the rounding unchanged while `american_to_decimal(-150) = 1.67 ≠ 5/3`. -/
theorem american_to_decimal_rounded (a : ℚ) :
    (0 < a → american_to_decimal (some a) = some (round2 (a / 100 + 1)))
  ∧ (a < 0 → american_to_decimal (some a) = some (round2 (100 / |a| + 1)))
  ∧ (∀ x : ℚ, |round2 x - x| ≤ 1/200 ∧ ∃ n : ℤ, round2 x = n / 100)
  ∧ american_to_decimal (some 150) = some (5/2)
  ∧ american_to_decimal (some (-150)) = some (167/100) := by
  refine ⟨fun h => by simp [american_to_decimal, h], ?_, fun x => ⟨?_, ?_⟩,
    ?_, ?_⟩
  · intro h
    simp [american_to_decimal, not_lt.mpr h.le, h.not_lt]
  · have h := roundHalfEven_close (x * 100)
    rw [abs_le] at h ⊢
    unfold round2
    constructor <;> [linarith [h.1]; linarith [h.2]]
  · exact ⟨roundHalfEven (x * 100), rfl⟩
  · norm_num [american_to_decimal, round2, roundHalfEven]
  · norm_num [american_to_decimal, round2, roundHalfEven]

/-- Witness for C5's amended theorem at `a = -150`: the negative branch
applies and the returned value is within 1/200 of `5/3`. -/
theorem american_to_decimal_rounded_witness :
    american_to_decimal (some (-150)) = some (round2 (100 / |(-150 : ℚ)| + 1))
  ∧ |round2 (5/3 : ℚ) - 5/3| ≤ 1/200 := by
  have h := american_to_decimal_rounded (-150)
  exact ⟨h.2.1 (by norm_num), (h.2.2.1 (5/3)).1⟩

/-- C8: the merge unions previous rows with new rows and drops duplicate
identifiers keeping the first occurrence — for every identifier the surviving
row is the first matching row of `previous ++ new`, so a previous row always
wins over a new row with the same identifier; the result carries no duplicate
identifiers; and merging the same batch a second time changes nothing. -/
theorem merge_dedup_spec {α : Type} (T R : List (MRow α)) :
    (∀ k : String,
      (mergeTables T R).find? (fun r => decide (r.id = k))
        = (T ++ R).find? (fun r => decide (r.id = k)))
  ∧ (∀ k : String,
      (T.find? (fun r => decide (r.id = k))).isSome →
      (mergeTables T R).find? (fun r => decide (r.id = k))
        = T.find? (fun r => decide (r.id = k)))
  ∧ ((mergeTables T R).map MRow.id).Nodup
  ∧ mergeTables (mergeTables T R) R = mergeTables T R := by
  refine ⟨fun k => find?_dropDupById _ k, ?_, nodup_ids_dropDupById _, ?_⟩
  · intro k hk
    show (dropDupById (T ++ R)).find? (fun r => decide (r.id = k))
      = T.find? (fun r => decide (r.id = k))
    rw [find?_dropDupById, List.find?_append]
    obtain ⟨x, hx⟩ := Option.isSome_iff_exists.mp hk
    rw [hx, Option.or_some]
  · show dropDupById (dropDupById (T ++ R) ++ R) = dropDupById (T ++ R)
    rw [dropDupById_append_absorb (dropDupById (T ++ R)).length _ R le_rfl,
      dropDupById_idem (T ++ R).length _ le_rfl]
    intro r hr
    rw [mem_ids_dropDupById]
    exact List.mem_map.mpr ⟨r, List.mem_append_right T hr, rfl⟩

/-- Witness for C8 at a concrete table: the previous row for id `a` survives
the merge and re-merging the same batch is a no-op. -/
theorem merge_dedup_spec_witness :
    (mergeTables [MRow.mk "a" (1 : ℕ)] [MRow.mk "a" 2]).find?
        (fun r => decide (r.id = "a"))
      = [MRow.mk "a" (1 : ℕ)].find? (fun r => decide (r.id = "a"))
  ∧ mergeTables (mergeTables [MRow.mk "a" (1 : ℕ)] [MRow.mk "a" 2])
        [MRow.mk "a" 2]
      = mergeTables [MRow.mk "a" (1 : ℕ)] [MRow.mk "a" 2] := by
  have h := merge_dedup_spec [MRow.mk "a" (1 : ℕ)] [MRow.mk "a" 2]
  exact ⟨h.2.1 "a" (by decide), h.2.2.2⟩

/-- C9: over record lists with pairwise-distinct `(sheet, row)` keys — which
the script guarantees by construction — any two distinct records whose
projected values are element-wise equal (two missing values in the same
column counting as equal) are reported exactly once, in a single order, and
no record is ever reported as a duplicate of itself. -/
theorem duplicate_pairs_reported_once (l : List DRow)
    (hnd : (l.map DRow.dkey).Nodup) (A B : DRow) (hA : A ∈ l) (hB : B ∈ l)
    (hne : A.dkey ≠ B.dkey) (he : rowvalsEq A.vals B.vals = true) :
    ((findDuplicatesLoops l).count (A.dkey, B.dkey)
      + (findDuplicatesLoops l).count (B.dkey, A.dkey) = 1)
  ∧ ∀ k, (k, k) ∉ findDuplicatesLoops l :=
  ⟨count_pair_once l hnd A B hA hB hne he, no_self_duplicate l hnd⟩

/-- Concrete records for the C9 witness: a train/test pair with equal
projected values (including a shared missing cell) plus an unrelated row. -/
def exDupRows : List DRow :=
  [⟨"train", 2, [some 1, none]⟩, ⟨"test", 2, [some 1, none]⟩,
   ⟨"train", 3, [some 5, some 6]⟩]

/-- Witness for C9 on `exDupRows`: the matching train/test pair is reported
exactly once and no self-pair appears. -/
theorem duplicate_pairs_reported_once_witness :
    ((findDuplicatesLoops exDupRows).count (("train", 2), ("test", 2))
      + (findDuplicatesLoops exDupRows).count (("test", 2), ("train", 2)) = 1)
  ∧ ∀ k, (k, k) ∉ findDuplicatesLoops exDupRows :=
  duplicate_pairs_reported_once exDupRows (by decide)
    ⟨"train", 2, [some 1, none]⟩ ⟨"test", 2, [some 1, none]⟩
    (by decide) (by decide) (by decide) (by decide)

/-- The get_odds.py document scan returns the quote of the head of the list
of qualifying bookmakers. -/
theorem fetch_totals_head_of_filter :
    ∀ (books : List BookmakerDoc) (b : BookmakerDoc)
      (rest : List BookmakerDoc),
    books.filter (fun bk => (bookQuote bk).isSome) = b :: rest →
    some (fetch_historical_totals books) = bookQuote b := by
  intro books
  induction books with
  | nil => intro b rest h; exact absurd h (by simp)
  | cons hd tl ih =>
    intro b rest h
    by_cases hq : (bookQuote hd).isSome
    · rw [List.filter_cons_of_pos (by simpa using hq)] at h
      injection h with h1 h2
      subst h1
      obtain ⟨q, hq'⟩ := Option.isSome_iff_exists.mp hq
      simp [fetch_historical_totals, hq']
    · have hnone : bookQuote hd = none := Option.not_isSome_iff_eq_none.mp hq
      rw [List.filter_cons_of_neg (by simpa using hq)] at h
      have hstep : fetch_historical_totals (hd :: tl)
          = fetch_historical_totals tl := by
        simp [fetch_historical_totals, hnone]
      rw [hstep]
      exact ih b rest h

/-- C3: when at least two bookmakers each carry a complete totals market
(both an `Over` and an `Under` outcome), `fetch_historical_totals` returns
the quote of the first qualifying bookmaker in document order; the extractor
is a pure function of the document, so repeated runs give this same result. -/
theorem extract_totals_first_match (books : List BookmakerDoc)
    (h : 2 ≤ (books.filter fun bk => (bookQuote bk).isSome).length) :
    ∃ b rest, books.filter (fun bk => (bookQuote bk).isSome) = b :: rest
      ∧ some (fetch_historical_totals books) = bookQuote b := by
  rcases hf : books.filter (fun bk => (bookQuote bk).isSome) with _ | ⟨b, rest⟩
  · rw [hf] at h
    simp at h
  · exact ⟨b, rest, rfl, fetch_totals_head_of_filter books b rest hf⟩

/-- Two bookmakers with complete totals markets quoting different lines, for
the C3 witness. -/
def exBooksC3 : List BookmakerDoc :=
  [⟨"book1", [⟨"totals", [⟨"Over", some 8, some 2⟩, ⟨"Under", some 8, some 2⟩]⟩]⟩,
   ⟨"book2", [⟨"totals", [⟨"Over", some 9, some 3⟩, ⟨"Under", some 9, some 3⟩]⟩]⟩]

/-- Witness for C3 on `exBooksC3`: both bookmakers qualify and the first
one's quote is returned. -/
theorem extract_totals_first_match_witness :
    (2 ≤ (exBooksC3.filter fun bk => (bookQuote bk).isSome).length)
  ∧ ∃ b rest, exBooksC3.filter (fun bk => (bookQuote bk).isSome) = b :: rest
      ∧ some (fetch_historical_totals exBooksC3) = bookQuote b :=
  ⟨by decide, extract_totals_first_match exBooksC3 (by decide)⟩

/-- A totals market whose Over/Under entries carry no `point`, for the C4
counterexample. -/
def exMarketC4 : MarketDoc :=
  ⟨"totals", [⟨"Over", none, some 2⟩, ⟨"Under", none, some 2⟩]⟩

/-- A document whose only totals market has Over/Under entries but no
defined `point` anywhere. -/
def exBooksC4 : List BookmakerDoc := [⟨"bookA", [exMarketC4]⟩]

/-- C4 counterexample: in `exBooksC4` no outcome carries a defined `point`,
so no bookmaker offers a complete totals market in the claim's sense, yet
`fetch_historical_totals` returns a partially populated quote (prices and
book set, line absent) instead of the all-`None` record. -/
theorem extract_totals_incomplete_quote_counterexample :
    (∀ b ∈ exBooksC4, ∀ m ∈ b.markets, ∀ o ∈ m.outcomes, o.point = none)
  ∧ fetch_historical_totals exBooksC4
      = ⟨none, some 2, some 2, some "bookA"⟩
  ∧ fetch_historical_totals exBooksC4 ≠ OddsRec.noData := by
  refine ⟨by decide, by decide, by decide⟩

/-- Helper for C4: when no bookmaker has a totals market with both an Over
and an Under entry, the get_odds.py extractor returns the all-`None`
record. -/
theorem fetch_totals_nodata :
    ∀ (books : List BookmakerDoc), (∀ b ∈ books, bookQuote b = none) →
    fetch_historical_totals books = OddsRec.noData := by
  intro books
  induction books with
  | nil => intro _; rfl
  | cons b bs ih =>
    intro h
    have hb := h b (List.mem_cons_self b bs)
    have hstep : fetch_historical_totals (b :: bs)
        = fetch_historical_totals bs := by
      simp [fetch_historical_totals, hb]
    rw [hstep]
    exact ih (fun x hx => h x (List.mem_cons_of_mem b hx))

/-- Helper for C4: the stats_grab.py variant skips the game entirely when
the first totals market's extracted line/over/under has a missing value. -/
theorem statsGrab_incomplete_skipped (books2 : List BookmakerDoc)
    (m : MarketDoc) (hf : findTotalsMarket books2 = some m)
    (hinc : (extractLineOdds m).1 = none ∨ (extractLineOdds m).2.1 = none ∨
      (extractLineOdds m).2.2 = none) :
    statsGrabQuote books2 = none := by
  unfold statsGrabQuote
  rw [hf]
  rcases hE : extractLineOdds m with ⟨lv, ov, un⟩
  rw [hE] at hinc
  rcases lv with _ | lv <;> rcases ov with _ | ov <;> rcases un with _ | un <;>
    simp_all

/-- C4 amended: if no bookmaker has a totals market containing both an
`Over` and an `Under` outcome entry, the get_odds.py extractor returns the
all-`None` record; but the completeness of `{line, over_price, under_price}`
itself is not checked there, so entries lacking `point`/`price` yield a
partial quote (see the counterexample).  Only the stats_grab.py variant
enforces the partial-quote invariant, skipping any game whose first totals
market extracts with a missing line or price. -/
theorem extract_totals_nodata_amended (books : List BookmakerDoc)
    (h : ∀ b ∈ books, bookQuote b = none) :
    fetch_historical_totals books = OddsRec.noData
  ∧ ∀ (books2 : List BookmakerDoc) (m : MarketDoc),
      findTotalsMarket books2 = some m →
      ((extractLineOdds m).1 = none ∨ (extractLineOdds m).2.1 = none ∨
        (extractLineOdds m).2.2 = none) →
      statsGrabQuote books2 = none :=
  ⟨fetch_totals_nodata books h, statsGrab_incomplete_skipped⟩

/-- A document with no totals market at all, for the C4 witness. -/
def exBooksC4b : List BookmakerDoc := [⟨"bookB", [⟨"h2h", []⟩]⟩]

/-- Witness for C4's amended theorem: a document without any totals market
gets the all-`None` record, and the point-less totals document is skipped by
the stats_grab.py variant. -/
theorem extract_totals_nodata_amended_witness :
    fetch_historical_totals exBooksC4b = OddsRec.noData
  ∧ statsGrabQuote exBooksC4 = none := by
  refine ⟨(extract_totals_nodata_amended exBooksC4b (by decide)).1, ?_⟩
  exact (extract_totals_nodata_amended exBooksC4b (by decide)).2 exBooksC4
    exMarketC4 (by decide) (Or.inl (by decide))

/-- An odds-endpoint oracle that serves a different document at the event's
nominal time than at any snapshot token, for the C7 counterexample. -/
def exRespAtC7 (eid date : String) : List BookmakerDoc :=
  if eid = "evt1" ∧ date = "2023-06-01T19:00:00Z"
  then [⟨"bookN", [⟨"totals", [⟨"Over", some 8, some 100⟩]⟩]⟩]
  else [⟨"bookS", [⟨"totals", [⟨"Over", some 9, some 100⟩]⟩]⟩]

/-- C7 counterexample: `fetch_totals_for_event` (fetch_historical_odds.py)
issues its historical odds query with `date := game_date_iso`, the event's
nominal time — its result is the reduction of the document served at the
nominal time, which differs from the document any snapshot token would
return, refuting "never with the event's nominal time". -/
theorem odds_query_by_nominal_time_counterexample :
    fetchTotalsQueryDate "evt1" "2023-06-01T19:00:00Z"
      = "2023-06-01T19:00:00Z"
  ∧ fetch_totals_for_event exRespAtC7 "evt1" "2023-06-01T19:00:00Z"
      = (some 8, some 2)
  ∧ overTotalsOf (exRespAtC7 "evt1" "snap-2023-06-01T18:55:01Z")
      = (some 9, some 2)
  ∧ ((some 8, some 2) : Option ℚ × Option ℚ) ≠ (some 9, some 2) := by
  have ha : american_to_decimal (some 100) = some 2 := by
    norm_num [american_to_decimal, round2, roundHalfEven]
  refine ⟨rfl, ?_, ?_, by simp⟩
  · simp [fetch_totals_for_event, exRespAtC7, overTotalsOf, overFromMarkets,
      List.find?, ha]
  · simp [exRespAtC7, overTotalsOf, overFromMarkets, List.find?, ha]

/-- C7 amended: in get_odds_v2.py (and get_odds.py) the historical odds
query is issued with the token returned by the snapshot lookup — a falsy
(absent or empty) token skips the event's odds enrichment entirely, with no
fallback to the nominal time; fetch_historical_odds.py however issues its
historical odds query directly with the event's nominal `game_date_iso`. -/
theorem snapshot_token_usage (resolveTs : String → String → Option String)
    (respAt : String → String → List BookmakerDoc) (eid iso : String) :
    (resolveTs eid iso = none →
      processEventOdds resolveTs respAt eid iso = none)
  ∧ (resolveTs eid iso = some "" →
      processEventOdds resolveTs respAt eid iso = none)
  ∧ (∀ ts, resolveTs eid iso = some ts → ts ≠ "" →
      processEventOdds resolveTs respAt eid iso
        = some (ts, fetch_historical_totals (respAt eid ts)))
  ∧ fetch_totals_for_event respAt eid iso = overTotalsOf (respAt eid iso)
  ∧ fetchTotalsQueryDate eid iso = iso := by
  refine ⟨fun h => ?_, fun h => ?_, fun ts h hne => ?_, rfl, rfl⟩
  · simp [processEventOdds, h]
  · simp [processEventOdds, h]
  · simp [processEventOdds, h, hne]

/-- A snapshot resolver that always succeeds with a fixed token, for the C7
witness. -/
def exResolveC7 (eid iso : String) : Option String :=
  if eid = "evt1" ∧ iso = "2023-06-01T19:00:00Z"
  then some "snap-2023-06-01T18:55:01Z" else none

/-- Witness for C7's amended theorem: with the concrete resolver the odds
query is keyed by the returned token, and a `none` resolution skips the
event. -/
theorem snapshot_token_usage_witness :
    processEventOdds exResolveC7 exRespAtC7 "evt1" "2023-06-01T19:00:00Z"
      = some ("snap-2023-06-01T18:55:01Z",
          fetch_historical_totals
            (exRespAtC7 "evt1" "snap-2023-06-01T18:55:01Z"))
  ∧ processEventOdds exResolveC7 exRespAtC7 "evt2" "2023-06-01T19:00:00Z"
      = none := by
  constructor
  · exact (snapshot_token_usage exResolveC7 exRespAtC7 "evt1"
      "2023-06-01T19:00:00Z").2.2.1 "snap-2023-06-01T18:55:01Z"
      (by simp [exResolveC7]) (by simp)
  · exact (snapshot_token_usage exResolveC7 exRespAtC7 "evt2"
      "2023-06-01T19:00:00Z").1 (by simp [exResolveC7])

/-- C6: a padded window containing zero eligible hourly samples makes both
weather aggregators fail with `none` (the raised `ValueError`), never a
zero-filled summary. -/
theorem empty_window_nodata (t : ℚ) (samples : List WSample) :
    ((samples.filter (inWindow (t - 3/2) (t + 3/2))) = [] →
      get_3hr_weather_avg t samples = none)
  ∧ ((samples.filter (inWindow (t - 1) (t + 1))) = [] →
      get_2hr_weather_avg t samples = none) := by
  constructor <;> intro h <;>
    simp [get_3hr_weather_avg, get_2hr_weather_avg, weatherAvg, h]

/-- A sample three hours after the event, outside both windows, for the C6
witness. -/
def exSampleC6 : WSample := ⟨3, 20, 50, 5, 180, 0⟩

/-- Witness for C6: with the only sample at +3 h both variants return
`none`. -/
theorem empty_window_nodata_witness :
    get_3hr_weather_avg 0 [exSampleC6] = none
  ∧ get_2hr_weather_avg 0 [exSampleC6] = none := by
  constructor
  · apply (empty_window_nodata 0 [exSampleC6]).1
    simp only [List.filter, inWindow, exSampleC6]
    norm_num
  · apply (empty_window_nodata 0 [exSampleC6]).2
    simp only [List.filter, inWindow, exSampleC6]
    norm_num

/-- The Python `% 360` normalization lands in `[0, 360)`. -/
theorem fmod360_mem (x : ℝ) : 0 ≤ fmod360 x ∧ fmod360 x < 360 := by
  unfold fmod360
  have h1 : (⌊x / 360⌋ : ℝ) ≤ x / 360 := Int.floor_le _
  have h2 : x / 360 < ⌊x / 360⌋ + 1 := Int.lt_floor_add_one _
  constructor <;> linarith

/-- The spec-side circular mean of degree samples is the source's angular
reduction applied to the radian-converted samples. -/
theorem circularMeanDegSpec_eq (degs : List ℝ) :
    circularMeanDegSpec degs = circAvgDeg (degs.map deg2rad) := rfl

/-- The circular mean of the two equally weighted samples 350° and 10° is
exactly 0°, not the arithmetic mean 180°. -/
theorem circularMeanDegSpec_350_10 : circularMeanDegSpec [350, 10] = 0 := by
  have hpi := Real.pi_pos
  have h350 : deg2rad 350 = 2 * Real.pi - deg2rad 10 := by
    unfold deg2rad; ring
  have hsin : Real.sin (deg2rad 350) = -Real.sin (deg2rad 10) := by
    rw [h350, Real.sin_sub, Real.sin_two_pi, Real.cos_two_pi]; ring
  have hcos : Real.cos (deg2rad 350) = Real.cos (deg2rad 10) := by
    rw [h350, Real.cos_sub, Real.sin_two_pi, Real.cos_two_pi]; ring
  have hcpos : 0 < Real.cos (deg2rad 10) := by
    apply Real.cos_pos_of_mem_Ioo
    constructor
    · unfold deg2rad; linarith
    · unfold deg2rad; linarith
  have hatan : atan2 0 (Real.cos (deg2rad 10)) = 0 := by
    unfold atan2
    rw [Complex.arg_eq_zero_iff]
    exact ⟨le_of_lt hcpos, rfl⟩
  unfold circularMeanDegSpec
  simp only [List.map_cons, List.map_nil, List.sum_cons, List.sum_nil,
    List.length_cons, List.length_nil]
  rw [hsin, hcos]
  have hs0 : -Real.sin (deg2rad 10) + (Real.sin (deg2rad 10) + 0) = 0 := by
    ring
  have hc2 : Real.cos (deg2rad 10) + (Real.cos (deg2rad 10) + 0)
      = 2 * Real.cos (deg2rad 10) := by ring
  rw [hs0, hc2]
  norm_num
  rw [hatan]
  unfold rad2deg fmod360
  norm_num

/-- C2: on every non-empty in-window sample set the aggregator's wind
direction is the circular mean of the sample angles — `atan2` of the
averaged sines and cosines, converted back to degrees and normalized into
`[0, 360)` — and that circular mean sends the equally weighted samples
`{350°, 10°}` to `0°`. -/
theorem wind_direction_circular_mean (hw t : ℚ) (samples : List WSample)
    (h : samples.filter (inWindow (t - hw) (t + hw)) ≠ []) :
    (∃ s, weatherAvg hw t samples = some s
      ∧ s.avgDir = circularMeanDegSpec
          ((samples.filter (inWindow (t - hw) (t + hw))).map (·.wdir))
      ∧ 0 ≤ s.avgDir ∧ s.avgDir < 360)
  ∧ circularMeanDegSpec [350, 10] = 0 := by
  refine ⟨?_, circularMeanDegSpec_350_10⟩
  have hne : ¬ (samples.filter (inWindow (t - hw) (t + hw))).isEmpty := by
    simpa [List.isEmpty_iff] using h
  have hav : weatherAvg hw t samples = some
      { avgTemp := ((samples.filter (inWindow (t - hw) (t + hw))).map
            (·.temp)).sum
            / (samples.filter (inWindow (t - hw) (t + hw))).length
        avgHum := ((samples.filter (inWindow (t - hw) (t + hw))).map
            (·.hum)).sum
            / (samples.filter (inWindow (t - hw) (t + hw))).length
        avgWind := ((samples.filter (inWindow (t - hw) (t + hw))).map
            (·.wspd)).sum
            / (samples.filter (inWindow (t - hw) (t + hw))).length
        avgDir := circAvgDeg ((samples.filter (inWindow (t - hw) (t + hw))).map
            fun s => deg2rad s.wdir)
        condition := weatherCodeText (mostCommon
            ((samples.filter (inWindow (t - hw) (t + hw))).map (·.code))) } := by
    unfold weatherAvg
    rw [if_neg hne]
  refine ⟨_, hav, ?_, ?_, ?_⟩
  · show circAvgDeg _ = circularMeanDegSpec _
    rw [circularMeanDegSpec_eq, List.map_map]
    rfl
  · exact (fmod360_mem _).1
  · exact (fmod360_mem _).2

/-- Two in-window samples whose wind directions are 350° and 10°, for the
C2 witness. -/
def exSamplesC2 : List WSample := [⟨0, 20, 50, 5, 350, 0⟩, ⟨0, 21, 51, 5, 10, 0⟩]

/-- Witness for C2: aggregating the 350°/10° samples yields wind direction
exactly 0°. -/
theorem wind_direction_circular_mean_witness :
    ∃ s, weatherAvg (3/2) 0 exSamplesC2 = some s ∧ s.avgDir = 0 := by
  have hfil : exSamplesC2.filter (inWindow (0 - 3/2) (0 + 3/2))
      = exSamplesC2 := by
    simp only [exSamplesC2, List.filter, inWindow]
    norm_num
  have h := wind_direction_circular_mean (3/2) 0 exSamplesC2
    (by rw [hfil]; simp [exSamplesC2])
  obtain ⟨⟨s, hs, hdir, -, -⟩, hconc⟩ := h
  refine ⟨s, hs, ?_⟩
  rw [hdir, hfil]
  have hmap : exSamplesC2.map (·.wdir) = [(350 : ℝ), 10] := by
    simp [exSamplesC2]
  rw [hmap, hconc]

end WinBets
